import Mathlib

/-!
# Terrascope core: Terraform-state decoding and graph building

A shallow embedding of the terrascope core transform:

* the data model of `backend/internal/models` (`TerraformState`, `Output`,
  `ResourceState`, `ResourceInstance`, `Graph`, `Node`, `Edge`);
* the graph builder of `backend/internal/parser` (`BuildGraph`,
  `buildNodeID`, `extractProviderName`, `buildMetadata`,
  `collectDependencies`);
* the state decoder `ParseTfstate` together with a model of the
  `encoding/json` unmarshalling of the `TerraformState` struct per its
  field tags (the textual JSON parser itself is an external library and
  is abstracted as a parameter).

Go `map[string]T` values are modelled as association lists with the usual
set/get operations (`mapSet` replaces an existing binding in place and
appends a fresh one; keys stay unique).  Go map iteration order is
non-deterministic; the model fixes insertion order as one admissible
order, and every theorem about edge multisets is stated order-insensitively
(counts and membership).  Dynamic (`any`) index keys are modelled as the
closed tagged variant {absent, integer, text} and JSON numbers as
integers, following the design note of the specification.
-/

namespace Terrascope

/-- A JSON value (numbers modelled as integers; the index keys and
attribute values observable by the graph builder are integral or
textual). -/
inductive Json where
  | null : Json
  | bool (b : Bool) : Json
  | num (n : Int) : Json
  | str (s : String) : Json
  | arr (elems : List Json) : Json
  | obj (fields : List (String × Json)) : Json

/-- A Terraform instance index key: Go `IndexKey any` restricted to the
shapes the system manipulates, as the closed variant {absent, integer,
text}.  `absent` models a `nil` interface value. -/
inductive IndexKey where
  | absent : IndexKey
  | int (n : Int) : IndexKey
  | str (s : String) : IndexKey

/-- Go struct `ResourceInstance` (models package). -/
structure ResourceInstance where
  schemaVersion : Int
  attributes : List (String × Json)
  attributesFlat : List (String × String)
  privateData : String
  dependencies : List String
  indexKey : IndexKey

/-- Go struct `ResourceState` (models package). -/
structure ResourceState where
  mode : String
  type : String
  name : String
  provider : String
  module : String
  instances : List ResourceInstance
  dependsOn : List String

/-- Go struct `Output` (models package). -/
structure Output where
  value : Json
  outType : Json
  sensitive : Bool

/-- Go struct `TerraformState` (models package). -/
structure TerraformState where
  version : Int
  terraformVersion : String
  serial : Int
  lineage : String
  outputs : List (String × Output)
  resources : List ResourceState

/-- Go struct `Node` (models package).  `Metadata map[string]any` is an
association list of JSON values. -/
structure Node where
  id : String
  type : String
  mode : String
  provider : String
  module : String
  metadata : List (String × Json)

/-- Go struct `Edge` (models package). -/
structure Edge where
  source : String
  target : String
  type : String
deriving DecidableEq

/-- Go struct `Graph` (models package); `Stats` is never populated by the
builder and is omitted. -/
structure Graph where
  nodes : List Node
  edges : List Edge

/-! ## Go map operations on association lists -/

/-- Go map read `m[k]` with comma-ok: the value bound to `k`, if any. -/
def mapGet {α : Type} (m : List (String × α)) (k : String) : Option α :=
  (m.find? (fun p => p.1 = k)).map (fun p => p.2)

/-- Go map write `m[k] = v`: replace the binding of `k` in place, or
append a fresh binding. -/
def mapSet {α : Type} : List (String × α) → String → α → List (String × α)
  | [], k, v => [(k, v)]
  | p :: rest, k, v => if p.1 = k then (k, v) :: rest else p :: mapSet rest k v

/-! ## Go string helpers (over the character list of a string) -/

/-- `strings.TrimPrefix`: drop `pre` from the front of `s` when present. -/
def trimLeading (pre s : List Char) : List Char :=
  if pre.isPrefixOf s then s.drop pre.length else s

/-- `strings.TrimSuffix`: drop `suf` from the end of `s` when present. -/
def trimTrailing (suf s : List Char) : List Char :=
  if suf.isSuffixOf s then s.take (s.length - suf.length) else s

/-- `strings.Split(s, "/")`: split on every slash; always non-empty. -/
def splitSlash : List Char → List (List Char)
  | [] => [[]]
  | c :: rest =>
    match splitSlash rest with
    | [] => [[c]]
    | h :: t => if c = '/' then [] :: h :: t else (c :: h) :: t

/-! ## Graph builder (`backend/internal/parser`, graph building file) -/

/-- The `%v` rendering of a non-nil index key (one level of pointer
wrapping already dereferenced): decimal for integers, verbatim text for
strings.  `none` for a nil key. -/
def indexKeyRepr : IndexKey → Option String
  | .absent => none
  | .int n => some (toString n)
  | .str s => some s

/-- Go `buildNodeID(res, instance, instanceIndex)`. -/
def buildNodeID (res : ResourceState) (inst : ResourceInstance)
    (instanceIndex : Nat) : String :=
  let parts : List String := if res.module ≠ "" then [res.module] else []
  let parts := parts ++ [res.type, res.name]
  let parts :=
    if res.instances.length > 1 then
      match indexKeyRepr inst.indexKey with
      | some keyText => parts ++ ["[" ++ keyText ++ "]"]
      | none => parts ++ ["[" ++ toString instanceIndex ++ "]"]
    else parts
  String.intercalate "." parts

/-- Go `extractProviderName(providerString)`. -/
def extractProviderName (providerString : String) : String :=
  let trimmed := trimTrailing "\"]".data (trimLeading "provider[\"".data providerString.data)
  let parts := (splitSlash trimmed).map String.mk
  if parts.length > 0 then (parts.getLast?).getD (String.mk trimmed)
  else String.mk trimmed

/-- The JSON value stored for a non-nil index key in node metadata. -/
def indexKeyJson : IndexKey → Json
  | .absent => .null
  | .int n => .num n
  | .str s => .str s

/-- Go `if v, ok := instance.Attributes[key]; ok { metadata[key] = v }` —
the copy pattern `buildMetadata` repeats for `id`, `name` and `arn`. -/
def copyAttr (attrs metadata : List (String × Json)) (key : String) :
    List (String × Json) :=
  match mapGet attrs key with
  | some v => mapSet metadata key v
  | none => metadata

/-- Go `if tags, ok := instance.Attributes["tags"].(map[string]any); ok
{ metadata["tags"] = tags }`: copied only when the value is itself a
string-keyed mapping. -/
def copyTags (attrs metadata : List (String × Json)) :
    List (String × Json) :=
  match mapGet attrs "tags" with
  | some (Json.obj tagFields) => mapSet metadata "tags" (Json.obj tagFields)
  | _ => metadata

/-- Go `if instance.IndexKey != nil { metadata["index_key"] =
instance.IndexKey }`. -/
def setIndexKey (metadata : List (String × Json)) (ik : IndexKey) :
    List (String × Json) :=
  match ik with
  | .absent => metadata
  | key => mapSet metadata "index_key" (indexKeyJson key)

/-- Go `buildMetadata(res, instance)`. -/
def buildMetadata (res : ResourceState) (inst : ResourceInstance) :
    List (String × Json) :=
  let metadata : List (String × Json) := [("mode", Json.str res.mode)]
  let metadata := copyAttr inst.attributes metadata "id"
  let metadata := copyAttr inst.attributes metadata "name"
  let metadata := copyAttr inst.attributes metadata "arn"
  let metadata := copyTags inst.attributes metadata
  setIndexKey metadata inst.indexKey

/-- Go `collectDependencies(explicit, implicit)`: explicit targets map to
`"depends_on"`; implicit targets are added as `"implicit"` only when the
target has no entry yet. -/
def collectDependencies (explicitDeps implicitDeps : List String) :
    List (String × String) :=
  let deps := explicitDeps.foldl (fun m dep => mapSet m dep "depends_on") []
  implicitDeps.foldl
    (fun m dep => if (mapGet m dep).isSome then m else mapSet m dep "implicit")
    deps

/-- The edges emitted for one node from its collected dependency map. -/
def instanceEdges (nodeID : String) (deps : List (String × String)) :
    List Edge :=
  deps.map (fun p => { source := nodeID, target := p.1, type := p.2 })

/-- The body of `BuildGraph`'s inner loop for one (resource, instance,
position) occurrence: skip entirely when the identifier was already
emitted, otherwise append the node and its edges and record the
identifier. -/
def processInstance (graph : Graph) (nodeMap : List String)
    (res : ResourceState) (inst : ResourceInstance) (i : Nat) :
    Graph × List String :=
  let nodeID := buildNodeID res inst i
  if nodeID ∈ nodeMap then (graph, nodeMap)
  else
    let node : Node :=
      { id := nodeID, type := res.type, mode := res.mode,
        provider := extractProviderName res.provider,
        module := res.module, metadata := buildMetadata res inst }
    let deps := collectDependencies res.dependsOn inst.dependencies
    ({ nodes := graph.nodes ++ [node],
       edges := graph.edges ++ instanceEdges nodeID deps },
     nodeID :: nodeMap)

/-- `BuildGraph`'s loop over the instances of one resource (in document
order, with the zero-based position). -/
def stepResource (acc : Graph × List String) (res : ResourceState) :
    Graph × List String :=
  res.instances.enum.foldl (fun a p => processInstance a.1 a.2 res p.2 p.1) acc

/-- Go `BuildGraph(state)`. -/
def BuildGraph (state : TerraformState) : Graph :=
  (state.resources.foldl stepResource ({ nodes := [], edges := [] }, [])).1

/-! ## State decoder (`backend/internal/parser`, tfstate parsing file)

`ParseTfstate` calls `encoding/json`'s `json.Unmarshal` to fill a
`TerraformState` struct.  The textual JSON parser is external library
code and is abstracted as a `List Nat → Option Json` parameter; the
mapping from a parsed JSON document onto the struct (determined by the
repository's struct field tags and Go's unmarshalling rules) is modelled
concretely below.  Absent or `null` keys leave the zero value of the
field; a key of the wrong shape is an unmarshal error (`none`). -/

/-- The error taxonomy of the decode step. -/
inductive ParseError where
  | emptyInput : ParseError
  | malformedDocument : ParseError
  | missingVersion : ParseError
  | missingToolVersion : ParseError
deriving DecidableEq

/-- Struct-field lookup in a JSON object: the last occurrence of the key
wins, as in `encoding/json`. -/
def jLookup (fields : List (String × Json)) (key : String) : Option Json :=
  (fields.reverse.find? (fun p => p.1 = key)).map (fun p => p.2)

/-- Unmarshal a `string` struct field: absent or `null` leaves `""`. -/
def decodeStringField : Option Json → Option String
  | none => some ""
  | some .null => some ""
  | some (.str s) => some s
  | some _ => none

/-- Unmarshal an `int` struct field: absent or `null` leaves `0`. -/
def decodeIntField : Option Json → Option Int
  | none => some 0
  | some .null => some 0
  | some (.num n) => some n
  | some _ => none

/-- Unmarshal a `bool` struct field: absent or `null` leaves `false`. -/
def decodeBoolField : Option Json → Option Bool
  | none => some false
  | some .null => some false
  | some (.bool b) => some b
  | some _ => none

/-- Unmarshal one element of a `[]string`: `null` leaves `""`. -/
def decodeStringElem : Json → Option String
  | .null => some ""
  | .str s => some s
  | _ => none

/-- Unmarshal a `[]string` struct field: absent or `null` is `nil`,
modelled as the empty list. -/
def decodeStringListField : Option Json → Option (List String)
  | none => some []
  | some .null => some []
  | some (.arr elems) => elems.mapM decodeStringElem
  | some _ => none

/-- Unmarshal a `map[string]any` struct field: absent or `null` is the
nil map; object fields are inserted in order (duplicate keys overwrite). -/
def decodeAnyMapField : Option Json → Option (List (String × Json))
  | none => some []
  | some .null => some []
  | some (.obj fields) => some (fields.foldl (fun m p => mapSet m p.1 p.2) [])
  | some _ => none

/-- Unmarshal a `map[string]string` struct field. -/
def decodeStringMapField : Option Json → Option (List (String × String))
  | none => some []
  | some .null => some []
  | some (.obj fields) =>
    (fields.mapM (fun p => (decodeStringElem p.2).map (fun s => (p.1, s)))).map
      (fun l => l.foldl (fun m p => mapSet m p.1 p.2) [])
  | some _ => none

/-- Unmarshal the `index_key` field (`any` in Go, modelled as the closed
variant of the specification): absent or `null` is a nil key. -/
def decodeIndexKeyField : Option Json → Option IndexKey
  | none => some .absent
  | some .null => some .absent
  | some (.num n) => some (.int n)
  | some (.str s) => some (.str s)
  | some _ => none

/-- The zero value of `ResourceInstance`. -/
def zeroInstance : ResourceInstance :=
  { schemaVersion := 0, attributes := [], attributesFlat := [],
    privateData := "", dependencies := [], indexKey := .absent }

/-- Unmarshal one `ResourceInstance` per its field tags (`schema_version`,
`attributes`, `attributes_flat`, `private`, `dependencies`, `index_key`);
`null` leaves the zero value. -/
def decodeInstance : Json → Option ResourceInstance
  | .null => some zeroInstance
  | .obj fields =>
    match decodeIntField (jLookup fields "schema_version"),
        decodeAnyMapField (jLookup fields "attributes"),
        decodeStringMapField (jLookup fields "attributes_flat"),
        decodeStringField (jLookup fields "private"),
        decodeStringListField (jLookup fields "dependencies"),
        decodeIndexKeyField (jLookup fields "index_key") with
    | some sv, some attrs, some flat, some priv, some deps, some key =>
      some { schemaVersion := sv, attributes := attrs, attributesFlat := flat,
             privateData := priv, dependencies := deps, indexKey := key }
    | _, _, _, _, _, _ => none
  | _ => none

/-- Unmarshal one `ResourceState` per its field tags (`mode`, `type`,
`name`, `provider`, `module`, `instances`, `depends_on`). -/
def decodeResource : Json → Option ResourceState
  | .null => some { mode := "", type := "", name := "", provider := "",
                    module := "", instances := [], dependsOn := [] }
  | .obj fields =>
    match decodeStringField (jLookup fields "mode"),
        decodeStringField (jLookup fields "type"),
        decodeStringField (jLookup fields "name"),
        decodeStringField (jLookup fields "provider"),
        decodeStringField (jLookup fields "module"),
        (match jLookup fields "instances" with
         | none => some []
         | some .null => some []
         | some (.arr elems) => elems.mapM decodeInstance
         | some _ => none),
        decodeStringListField (jLookup fields "depends_on") with
    | some mo, some ty, some na, some pr, some md, some insts, some deps =>
      some { mode := mo, type := ty, name := na, provider := pr,
             module := md, instances := insts, dependsOn := deps }
    | _, _, _, _, _, _, _ => none
  | _ => none

/-- Unmarshal the `resources` field (`[]ResourceState`): absent or `null`
is `nil`, modelled as the empty list. -/
def decodeResourcesField : Option Json → Option (List ResourceState)
  | none => some []
  | some .null => some []
  | some (.arr elems) => elems.mapM decodeResource
  | some _ => none

/-- Unmarshal one `Output` per its field tags (`value`, `type`,
`sensitive`); `value` and `type` are `any` and keep the JSON verbatim. -/
def decodeOutput : Json → Option Output
  | .null => some { value := .null, outType := .null, sensitive := false }
  | .obj fields =>
    match decodeBoolField (jLookup fields "sensitive") with
    | some sens =>
      some { value := (jLookup fields "value").getD .null,
             outType := (jLookup fields "type").getD .null,
             sensitive := sens }
    | none => none
  | _ => none

/-- Unmarshal the `outputs` field (`map[string]Output`). -/
def decodeOutputsField : Option Json → Option (List (String × Output))
  | none => some []
  | some .null => some []
  | some (.obj fields) =>
    (fields.mapM (fun p => (decodeOutput p.2).map (fun o => (p.1, o)))).map
      (fun l => l.foldl (fun m p => mapSet m p.1 p.2) [])
  | some _ => none

/-- The zero value of `TerraformState`. -/
def zeroState : TerraformState :=
  { version := 0, terraformVersion := "", serial := 0, lineage := "",
    outputs := [], resources := [] }

/-- Unmarshal a JSON document into the `TerraformState` struct per its
field tags (`version`, `terraform_version`, `serial`, `lineage`,
`outputs`, `resources`). -/
def decodeState : Json → Option TerraformState
  | .null => some zeroState
  | .obj fields =>
    match decodeIntField (jLookup fields "version"),
        decodeStringField (jLookup fields "terraform_version"),
        decodeIntField (jLookup fields "serial"),
        decodeStringField (jLookup fields "lineage"),
        decodeOutputsField (jLookup fields "outputs"),
        decodeResourcesField (jLookup fields "resources") with
    | some v, some tv, some se, some li, some os, some rs =>
      some { version := v, terraformVersion := tv, serial := se,
             lineage := li, outputs := os, resources := rs }
    | _, _, _, _, _, _ => none
  | _ => none

/-- Go `ParseTfstate(data)`: empty-input check, JSON unmarshal (the
textual parser `unmarshalJson` is the external library, the struct
mapping is `decodeState`), then the two required-field checks, in that
order.  Every failure is returned to the caller. -/
def ParseTfstate (unmarshalJson : List Nat → Option Json)
    (data : List Nat) : Except ParseError TerraformState :=
  if data.length = 0 then .error .emptyInput
  else
    match (unmarshalJson data).bind decodeState with
    | none => .error .malformedDocument
    | some state =>
      if state.version = 0 then .error .missingVersion
      else if state.terraformVersion = "" then .error .missingToolVersion
      else .ok state

/-! ## Specification-side definitions (for refinement claims)

These follow the wording of the specification, to be compared with the
definitions translated from the source. -/

/-- The node-identifier construction as the specification words it: the
`.`-join of the module path verbatim when non-empty, the resource type,
the resource name, and — only when the resource has more than one
instance — a bracketed segment holding the non-null index key's textual
representation or, for a null key, the instance's zero-based position. -/
def nodeIDSpec (res : ResourceState) (inst : ResourceInstance)
    (pos : Nat) : String :=
  String.intercalate "."
    ((if res.module = "" then [] else [res.module]) ++
      [res.type, res.name] ++
      (if res.instances.length > 1 then
        [(match indexKeyRepr inst.indexKey with
          | some keyText => "[" ++ keyText ++ "]"
          | none => "[" ++ toString pos ++ "]")]
      else []))

/-- The provider-name normalization as the specification words it: strip
the literal leading and trailing wrappers when present, split on `/`,
take the last segment. -/
def providerNameSpec (s : String) : String :=
  let remainder := trimTrailing "\"]".data (trimLeading "provider[\"".data s.data)
  let segments := (splitSlash remainder).map String.mk
  segments.getLastD (String.mk remainder)

/-- The metadata `tags` rule of the specification: keep the attribute
value only when it is itself a string-keyed mapping. -/
def tagsProjection : Option Json → Option Json
  | some (Json.obj fields) => some (Json.obj fields)
  | _ => none

/-! ## Concrete example values (used by witnesses and sample conjuncts) -/

/-- An instance with given implicit dependencies, index key and
attributes. -/
def mkInstance (deps : List String) (key : IndexKey)
    (attrs : List (String × Json)) : ResourceInstance :=
  { schemaVersion := 0, attributes := attrs, attributesFlat := [],
    privateData := "", dependencies := deps, indexKey := key }

/-- A single-instance resource of type `T`, name `N`, with an index key
present on its only instance. -/
def singleKeyedRes (moduleName : String) : ResourceState :=
  { mode := "managed", type := "T", name := "N", provider := "aws",
    module := moduleName,
    instances := [mkInstance [] (.str "k") []], dependsOn := [] }

/-- A resource whose single instance carries the sample allow-list
attributes, including a `secret` attribute that must never be copied. -/
def metadataSampleRes : ResourceState :=
  { mode := "managed", type := "aws_s3_bucket", name := "assets",
    provider := "provider[\"registry.terraform.io/hashicorp/aws\"]",
    module := "",
    instances := [mkInstance [] .absent
      [("id", .str "x"), ("name", .str "y"), ("arn", .str "z"),
       ("tags", .obj [("a", .str "b")]), ("secret", .str "nope")]],
    dependsOn := [] }

/-- A resource declaring the same target both explicitly and
implicitly. -/
def precedenceRes : ResourceState :=
  { mode := "managed", type := "aws_instance", name := "web",
    provider := "provider[\"registry.terraform.io/hashicorp/aws\"]",
    module := "",
    instances := [mkInstance ["aws_vpc.main"] .absent []],
    dependsOn := ["aws_vpc.main"] }

/-- A resource used twice to exercise duplicate collapse; it carries both
an explicit and an implicit dependency. -/
def dupRes : ResourceState :=
  { mode := "managed", type := "aws_vpc", name := "main",
    provider := "provider[\"registry.terraform.io/hashicorp/aws\"]",
    module := "",
    instances := [mkInstance ["aws_x.y"] .absent [("id", .str "vpc-1")]],
    dependsOn := ["aws_q.z"] }

/-- A state declaring `dupRes` twice: both occurrences compute the same
identifier. -/
def dupState : TerraformState :=
  { version := 4, terraformVersion := "1.5.0", serial := 0, lineage := "",
    outputs := [], resources := [dupRes, dupRes] }

/-- A state with one resource carrying one explicit dependency. -/
def edgeSampleState : TerraformState :=
  { version := 4, terraformVersion := "1.5.0", serial := 0, lineage := "",
    outputs := [], resources := [precedenceRes] }

/-- A zero-resource state. -/
def emptyState : TerraformState :=
  { version := 4, terraformVersion := "1.5.0", serial := 1, lineage := "abc",
    outputs := [], resources := [] }

/-- A zero-instance resource with a non-empty explicit dependency list. -/
def zeroInstanceRes : ResourceState :=
  { mode := "managed", type := "aws_instance", name := "ghost",
    provider := "aws", module := "", instances := [],
    dependsOn := ["aws_vpc.main"] }

/-- A sample decoded document carrying only the two required fields. -/
def minimalDoc : Json :=
  .obj [("version", .num 4), ("terraform_version", .str "1.5.0")]

/-! ## Helper lemmas: Go-map association lists -/

theorem mapGet_cons {α : Type} (p : String × α) (m : List (String × α))
    (k : String) :
    mapGet (p :: m) k = if p.1 = k then some p.2 else mapGet m k := by
  by_cases h : p.1 = k
  · simp [mapGet, List.find?_cons_of_pos, h]
  · simp [mapGet, List.find?_cons_of_neg, h]

theorem mapGet_mapSet {α : Type} (m : List (String × α)) (k k' : String)
    (v : α) :
    mapGet (mapSet m k v) k' = if k' = k then some v else mapGet m k' := by
  induction m with
  | nil =>
    rw [show mapSet ([] : List (String × α)) k v = [(k, v)] from rfl,
      mapGet_cons]
    simp [mapGet, eq_comm]
  | cons p rest ih =>
    by_cases hpk : p.1 = k
    · subst hpk
      rw [show mapSet (p :: rest) p.1 v = (p.1, v) :: rest by
        simp [mapSet], mapGet_cons, mapGet_cons]
      by_cases h : k' = p.1 <;> simp [h, eq_comm]
    · rw [show mapSet (p :: rest) k v = p :: mapSet rest k v by
        simp [mapSet, hpk], mapGet_cons, mapGet_cons, ih]
      by_cases hk' : k' = k
      · subst hk'
        simp [hpk]
      · simp [hk']

theorem mapSet_keys {α : Type} (m : List (String × α)) (k : String) (v : α) :
    (mapSet m k v).map Prod.fst =
      if k ∈ m.map Prod.fst then m.map Prod.fst else m.map Prod.fst ++ [k] := by
  induction m with
  | nil => simp [mapSet]
  | cons p rest ih =>
    by_cases hpk : p.1 = k
    · simp [mapSet, hpk]
    · have : ¬ k = p.1 := fun h => hpk h.symm
      by_cases hk : k ∈ rest.map Prod.fst <;>
        simp [mapSet, hpk, ih, hk, this]

theorem mapSet_keys_nodup {α : Type} (m : List (String × α)) (k : String)
    (v : α) (h : (m.map Prod.fst).Nodup) :
    ((mapSet m k v).map Prod.fst).Nodup := by
  rw [mapSet_keys]
  by_cases hk : k ∈ m.map Prod.fst
  · simpa [hk] using h
  · rw [if_neg hk]
    exact List.Nodup.append h (List.nodup_singleton k)
      (List.disjoint_singleton.mpr hk)

theorem mapGet_isSome_iff {α : Type} (m : List (String × α)) (k : String) :
    (mapGet m k).isSome = true ↔ k ∈ m.map Prod.fst := by
  induction m with
  | nil => simp [mapGet]
  | cons p rest ih =>
    by_cases h : p.1 = k <;> simp [mapGet_cons, h, ih]
    exact fun hk => absurd hk.symm h

theorem mapGet_eq_some_of_mem_nodup {α : Type} :
    ∀ (m : List (String × α)) (p : String × α), p ∈ m →
      (m.map Prod.fst).Nodup → mapGet m p.1 = some p.2 := by
  intro m
  induction m with
  | nil => intro p hm _; cases hm
  | cons q rest ih =>
    intro p hm hnd
    simp only [List.map_cons, List.nodup_cons] at hnd
    rcases List.mem_cons.mp hm with h | h
    · subst h; simp [mapGet_cons]
    · have hq : q.1 ≠ p.1 := by
        intro he
        exact hnd.1 (he ▸ List.mem_map.mpr ⟨p, h, rfl⟩)
      simp [mapGet_cons, hq, ih p h hnd.2]

/-- A generic invariant-preservation principle for `List.foldl`. -/
theorem foldl_preserves {α β : Type} (P : α → Prop) (f : α → β → α)
    (step : ∀ a b, P a → P (f a b)) :
    ∀ (l : List β) (a : α), P a → P (l.foldl f a) := by
  intro l
  induction l with
  | nil => exact fun a h => h
  | cons b t ih => exact fun a h => ih _ (step a b h)

theorem mapGet_foldl_setConst (l : List String) (c : String) :
    ∀ (m0 : List (String × String)) (t : String),
      mapGet (l.foldl (fun m dep => mapSet m dep c) m0) t =
        if t ∈ l then some c else mapGet m0 t := by
  induction l with
  | nil => intro m0 t; simp
  | cons hd rest ih =>
    intro m0 t
    rw [List.foldl_cons, ih]
    by_cases ht : t ∈ rest
    · simp [ht, List.mem_cons]
    · by_cases hth : t = hd
      · simp [ht, hth, mapGet_mapSet]
      · simp [ht, hth, mapGet_mapSet, List.mem_cons]

theorem mapGet_foldl_addImplicit (l : List String) :
    ∀ (m0 : List (String × String)) (t : String),
      mapGet (l.foldl
          (fun m dep =>
            if (mapGet m dep).isSome then m else mapSet m dep "implicit")
          m0) t =
        if (mapGet m0 t).isSome then mapGet m0 t
        else if t ∈ l then some "implicit" else none := by
  induction l with
  | nil =>
    intro m0 t
    by_cases h : (mapGet m0 t).isSome
    · simp [h]
    · simp [h, Option.not_isSome_iff_eq_none.mp h]
  | cons hd rest ih =>
    intro m0 t
    rw [List.foldl_cons]
    by_cases hh : (mapGet m0 hd).isSome
    · rw [if_pos hh, ih]
      by_cases hts : (mapGet m0 t).isSome
      · simp [hts]
      · have hth : t ≠ hd := fun he => hts (he ▸ hh)
        simp [hts, List.mem_cons, hth]
    · rw [if_neg hh, ih]
      by_cases hth : t = hd
      · subst hth
        have hnone : mapGet m0 t = none := Option.not_isSome_iff_eq_none.mp hh
        simp [mapGet_mapSet, hnone]
      · by_cases hts : (mapGet m0 t).isSome <;>
          simp [mapGet_mapSet, hth, hts, List.mem_cons,
            Option.not_isSome_iff_eq_none.mp]

theorem collectDependencies_keys_nodup (exD imD : List String) :
    ((collectDependencies exD imD).map Prod.fst).Nodup := by
  have base := foldl_preserves
    (fun m : List (String × String) => (m.map Prod.fst).Nodup)
    (fun m dep => mapSet m dep "depends_on")
    (fun a b h => mapSet_keys_nodup a b _ h) exD [] (by simp)
  exact foldl_preserves
    (fun m : List (String × String) => (m.map Prod.fst).Nodup)
    (fun m dep =>
      if (mapGet m dep).isSome then m else mapSet m dep "implicit")
    (fun a b h => by
      by_cases hs : (mapGet a b).isSome
      · simpa [hs] using h
      · simpa [hs] using mapSet_keys_nodup a b _ h)
    imD _ base

theorem mapGet_collectDependencies (exD imD : List String) (t : String) :
    mapGet (collectDependencies exD imD) t =
      if t ∈ exD then some "depends_on"
      else if t ∈ imD then some "implicit" else none := by
  unfold collectDependencies
  rw [mapGet_foldl_addImplicit, mapGet_foldl_setConst]
  by_cases hex : t ∈ exD
  · simp [hex]
  · simp [hex, mapGet]

theorem countP_key_of_nodup {α : Type} :
    ∀ (m : List (String × α)) (t : String), (m.map Prod.fst).Nodup →
      m.countP (fun p => p.1 = t) = if t ∈ m.map Prod.fst then 1 else 0 := by
  intro m
  induction m with
  | nil => simp
  | cons q rest ih =>
    intro t hnd
    simp only [List.map_cons, List.nodup_cons] at hnd
    rw [List.countP_cons]
    by_cases hq : q.1 = t
    · subst hq
      rw [ih _ hnd.2]
      simp [hnd.1]
    · rw [ih t hnd.2]
      have : ¬ t = q.1 := fun he => hq he.symm
      by_cases ht : t ∈ rest.map Prod.fst <;>
        simp [hq, ht, this, List.mem_cons]

theorem mem_of_mapGet_eq_some {α : Type} (m : List (String × α))
    (k : String) (v : α) (h : mapGet m k = some v) : (k, v) ∈ m := by
  unfold mapGet at h
  cases hf : m.find? (fun p => p.1 = k) with
  | none => simp [hf] at h
  | some p =>
    have hp : p.1 = k := by simpa using List.find?_some hf
    have hm : p ∈ m := List.mem_of_find?_eq_some hf
    cases p with
    | mk a b =>
      simp only at hp
      subst hp
      have hv : b = v := by simpa [hf] using h
      subst hv
      exact hm

/-! ## Helper lemmas: graph-build invariants -/

/-- Invariant carried through the build loops: emitted node identifiers
are pairwise distinct, and each is recorded in the seen-set. -/
def NodesInv (acc : Graph × List String) : Prop :=
  ((acc.1.nodes.map Node.id).Nodup) ∧ ∀ n ∈ acc.1.nodes, n.id ∈ acc.2

theorem processInstance_nodesInv (g : Graph) (m : List String)
    (res : ResourceState) (inst : ResourceInstance) (i : Nat)
    (h : NodesInv (g, m)) : NodesInv (processInstance g m res inst i) := by
  unfold processInstance
  by_cases hm : buildNodeID res inst i ∈ m
  · simpa [hm] using h
  · simp only [hm, if_false, NodesInv]
    constructor
    · simp only [List.map_append, List.map_cons, List.map_nil]
      refine List.Nodup.append h.1 (List.nodup_singleton _) ?_
      intro a ha hb
      simp only [List.mem_singleton] at hb
      subst hb
      rcases List.mem_map.mp ha with ⟨n, hn, hid⟩
      exact hm (hid ▸ h.2 n hn)
    · intro n hn
      rcases List.mem_append.mp hn with hn | hn
      · exact List.mem_cons_of_mem _ (h.2 n hn)
      · simp only [List.mem_singleton] at hn
        subst hn
        exact List.mem_cons_self _ _

theorem buildGraph_nodesInv (state : TerraformState) :
    NodesInv (state.resources.foldl stepResource
      ({ nodes := [], edges := [] }, [])) := by
  apply foldl_preserves NodesInv stepResource
  · intro acc res hacc
    unfold stepResource
    exact foldl_preserves NodesInv
      (fun a (p : Nat × ResourceInstance) => processInstance a.1 a.2 res p.2 p.1)
      (fun a p ha => processInstance_nodesInv a.1 a.2 res p.2 p.1 ha)
      res.instances.enum acc hacc
  · exact ⟨List.nodup_nil, by intro n hn; cases hn⟩

/-- Invariant: every emitted edge's source is an emitted node's
identifier. -/
def EdgesInv (acc : Graph × List String) : Prop :=
  ∀ e ∈ acc.1.edges, ∃ n ∈ acc.1.nodes, n.id = e.source

theorem processInstance_edgesInv (g : Graph) (m : List String)
    (res : ResourceState) (inst : ResourceInstance) (i : Nat)
    (h : EdgesInv (g, m)) : EdgesInv (processInstance g m res inst i) := by
  unfold processInstance
  by_cases hm : buildNodeID res inst i ∈ m
  · simpa [hm] using h
  · simp only [hm, if_false, EdgesInv]
    intro e he
    rcases List.mem_append.mp he with he | he
    · rcases h e he with ⟨n, hn, hid⟩
      exact ⟨n, List.mem_append_left _ hn, hid⟩
    · refine ⟨_, List.mem_append_right _ (List.mem_singleton_self _), ?_⟩
      rcases List.mem_map.mp he with ⟨p, _, hp⟩
      subst hp
      rfl

theorem buildGraph_edgesInv (state : TerraformState) :
    EdgesInv (state.resources.foldl stepResource
      ({ nodes := [], edges := [] }, [])) := by
  apply foldl_preserves EdgesInv stepResource
  · intro acc res hacc
    unfold stepResource
    exact foldl_preserves EdgesInv
      (fun a (p : Nat × ResourceInstance) => processInstance a.1 a.2 res p.2 p.1)
      (fun a p ha => processInstance_edgesInv a.1 a.2 res p.2 p.1 ha)
      res.instances.enum acc hacc
  · intro e he; cases he

theorem lastSegment_eq (l : List String) (d : String) :
    (if l.length > 0 then (l.getLast?).getD d else d) = l.getLastD d := by
  cases l with
  | nil => simp
  | cons a t => simp [List.getLastD_eq_getLast?]

/-! ## Helper lemmas: metadata construction -/

theorem mapGet_copyAttr (attrs m : List (String × Json)) (key k : String)
    (hfresh : mapGet m key = none) :
    mapGet (copyAttr attrs m key) k =
      if k = key then mapGet attrs key else mapGet m k := by
  unfold copyAttr
  cases ho : mapGet attrs key with
  | none => by_cases hk : k = key <;> simp [hk, hfresh]
  | some v => by_cases hk : k = key <;> simp [hk, mapGet_mapSet]

theorem mapGet_copyTags (attrs m : List (String × Json)) (k : String)
    (hfresh : mapGet m "tags" = none) :
    mapGet (copyTags attrs m) k =
      if k = "tags" then tagsProjection (mapGet attrs "tags")
      else mapGet m k := by
  unfold copyTags tagsProjection
  cases ho : mapGet attrs "tags" with
  | none => by_cases hk : k = "tags" <;> simp [hk, hfresh]
  | some j =>
    cases j <;> by_cases hk : k = "tags" <;>
      simp [hk, hfresh, mapGet_mapSet]

theorem mapGet_setIndexKey (m : List (String × Json)) (k : String)
    (ik : IndexKey) (hfresh : mapGet m "index_key" = none) :
    mapGet (setIndexKey m ik) k =
      if k = "index_key" then
        (match ik with
         | .absent => none
         | key => some (indexKeyJson key))
      else mapGet m k := by
  unfold setIndexKey
  cases ik with
  | absent => by_cases hk : k = "index_key" <;> simp [hk, hfresh]
  | int n => by_cases hk : k = "index_key" <;> simp [hk, mapGet_mapSet]
  | str s => by_cases hk : k = "index_key" <;> simp [hk, mapGet_mapSet]

/-- Full characterization of one metadata lookup. -/
theorem buildMetadata_get (res : ResourceState) (inst : ResourceInstance)
    (k : String) :
    mapGet (buildMetadata res inst) k =
      if k = "index_key" then
        (match inst.indexKey with
         | .absent => none
         | key => some (indexKeyJson key))
      else if k = "tags" then tagsProjection (mapGet inst.attributes "tags")
      else if k = "arn" then mapGet inst.attributes "arn"
      else if k = "name" then mapGet inst.attributes "name"
      else if k = "id" then mapGet inst.attributes "id"
      else if k = "mode" then some (Json.str res.mode)
      else none := by
  have hmode : ∀ k', mapGet [("mode", Json.str res.mode)] k' =
      if k' = "mode" then some (Json.str res.mode) else none := by
    intro k'
    by_cases hk : k' = "mode" <;> simp [mapGet_cons, mapGet, hk, eq_comm]
  have h1 : ∀ k', mapGet (copyAttr inst.attributes
      [("mode", Json.str res.mode)] "id") k' =
      if k' = "id" then mapGet inst.attributes "id"
      else if k' = "mode" then some (Json.str res.mode) else none := by
    intro k'
    rw [mapGet_copyAttr _ _ _ _ (by rw [hmode]; simp), hmode]
  have h2 : ∀ k', mapGet (copyAttr inst.attributes (copyAttr inst.attributes
      [("mode", Json.str res.mode)] "id") "name") k' =
      if k' = "name" then mapGet inst.attributes "name"
      else if k' = "id" then mapGet inst.attributes "id"
      else if k' = "mode" then some (Json.str res.mode) else none := by
    intro k'
    rw [mapGet_copyAttr _ _ _ _ (by rw [h1]; simp), h1]
  have h3 : ∀ k', mapGet (copyAttr inst.attributes (copyAttr inst.attributes
      (copyAttr inst.attributes [("mode", Json.str res.mode)] "id") "name")
      "arn") k' =
      if k' = "arn" then mapGet inst.attributes "arn"
      else if k' = "name" then mapGet inst.attributes "name"
      else if k' = "id" then mapGet inst.attributes "id"
      else if k' = "mode" then some (Json.str res.mode) else none := by
    intro k'
    rw [mapGet_copyAttr _ _ _ _ (by rw [h2]; simp), h2]
  have h4 : ∀ k', mapGet (copyTags inst.attributes (copyAttr inst.attributes
      (copyAttr inst.attributes (copyAttr inst.attributes
        [("mode", Json.str res.mode)] "id") "name") "arn")) k' =
      if k' = "tags" then tagsProjection (mapGet inst.attributes "tags")
      else if k' = "arn" then mapGet inst.attributes "arn"
      else if k' = "name" then mapGet inst.attributes "name"
      else if k' = "id" then mapGet inst.attributes "id"
      else if k' = "mode" then some (Json.str res.mode) else none := by
    intro k'
    rw [mapGet_copyTags _ _ _ (by rw [h3]; simp), h3]
  show mapGet (setIndexKey _ inst.indexKey) k = _
  rw [mapGet_setIndexKey _ _ _ (by rw [h4]; simp), h4]

/-! ## Claim theorems -/

/-- C1: node-identifier construction.  For every resource and instance,
`buildNodeID` is the `.`-join of the module path verbatim when
non-empty, the resource type, the resource name, and — only when the
resource has more than one instance — a bracketed segment holding the
non-null index key's textual representation (one level of pointer
wrapping dereferenced) or, for a null key, the zero-based position;
a single-instance resource gets no bracketed segment even though its
instance carries an index key, so type `T`, name `N`, module `""` yields
`"T.N"` and module `"module.app"` yields `"module.app.T.N"`. -/
theorem buildNodeID_matches_spec :
    (∀ (res : ResourceState) (inst : ResourceInstance) (i : Nat),
      buildNodeID res inst i = nodeIDSpec res inst i)
    ∧ buildNodeID (singleKeyedRes "") (mkInstance [] (.str "k") []) 0 = "T.N"
    ∧ buildNodeID (singleKeyedRes "module.app") (mkInstance [] (.str "k") []) 0
        = "module.app.T.N" := by
  refine ⟨fun res inst i => ?_, rfl, rfl⟩
  unfold buildNodeID nodeIDSpec
  by_cases hm : res.module = "" <;>
    by_cases hl : res.instances.length > 1 <;>
      cases hk : indexKeyRepr inst.indexKey <;>
        simp [hm, hl, hk]

/-- C6: provider-name normalization.  For every provider string the
result strips a literal leading `provider["` and trailing `"]` when
present, splits the remainder on `/` and takes the last segment; the
registry form maps to `aws`, the short form maps to `aws`, a bare name
and the empty string are unchanged. -/
theorem extractProviderName_normalizes :
    (∀ s : String, extractProviderName s = providerNameSpec s)
    ∧ extractProviderName "provider[\"registry.terraform.io/hashicorp/aws\"]"
        = "aws"
    ∧ extractProviderName "provider[\"aws\"]" = "aws"
    ∧ extractProviderName "aws" = "aws"
    ∧ extractProviderName "" = "" := by
  refine ⟨fun s => ?_, rfl, rfl, rfl, rfl⟩
  unfold extractProviderName providerNameSpec
  exact lastSegment_eq _ _

/-- C7: build totality and empty-state behaviour.  `BuildGraph` is a
total function of the state (it returns a `Graph` for every input by
construction — an absent `resources` key is decoded to the empty
sequence, see `decodeResourcesField`), and every zero-resource state
yields the graph with empty node and edge sequences. -/
theorem buildGraph_empty_state (state : TerraformState)
    (h : state.resources = []) :
    BuildGraph state = { nodes := [], edges := [] } := by
  unfold BuildGraph
  rw [h]
  rfl

theorem buildGraph_empty_state_witness :
    BuildGraph emptyState = { nodes := [], edges := [] } :=
  buildGraph_empty_state emptyState rfl

/-- C9: zero-instance resources are fully dropped.  A resource whose
instance list is empty contributes nothing to the loop state, and
removing it from any state leaves the built graph unchanged — its
explicit `depends_on` entries never reach the output. -/
theorem buildGraph_drops_zero_instance_resources :
    (∀ (acc : Graph × List String) (res : ResourceState),
      res.instances = [] → stepResource acc res = acc)
    ∧ (∀ (state : TerraformState) (pre post : List ResourceState)
        (res : ResourceState), res.instances = [] →
        state.resources = pre ++ res :: post →
        BuildGraph state =
          BuildGraph { state with resources := pre ++ post }) := by
  have h1 : ∀ (acc : Graph × List String) (res : ResourceState),
      res.instances = [] → stepResource acc res = acc := by
    intro acc res h
    unfold stepResource
    rw [h]
    rfl
  refine ⟨h1, ?_⟩
  intro state pre post res h hres
  unfold BuildGraph
  simp only [hres, List.foldl_append, List.foldl_cons, h1 _ res h]

theorem buildGraph_drops_zero_instance_resources_witness :
    stepResource ({ nodes := [], edges := [] }, []) zeroInstanceRes
        = ({ nodes := [], edges := [] }, [])
    ∧ BuildGraph { emptyState with resources := [zeroInstanceRes] }
        = BuildGraph emptyState :=
  ⟨buildGraph_drops_zero_instance_resources.1 _ zeroInstanceRes rfl,
    buildGraph_drops_zero_instance_resources.2 _ [] [] zeroInstanceRes rfl rfl⟩

/-- C5: metadata allow-list.  The metadata mapping binds `mode` to the
resource mode unconditionally; `id`, `name` and `arn` exactly when those
attribute keys are present (values copied); `tags` exactly when the
attribute value is itself a string-keyed mapping; `index_key` exactly
when the instance's index key is non-null; and no other key at all. -/
theorem buildMetadata_allowlist (res : ResourceState)
    (inst : ResourceInstance) :
    mapGet (buildMetadata res inst) "mode" = some (Json.str res.mode)
    ∧ mapGet (buildMetadata res inst) "id" = mapGet inst.attributes "id"
    ∧ mapGet (buildMetadata res inst) "name" = mapGet inst.attributes "name"
    ∧ mapGet (buildMetadata res inst) "arn" = mapGet inst.attributes "arn"
    ∧ mapGet (buildMetadata res inst) "tags"
        = tagsProjection (mapGet inst.attributes "tags")
    ∧ mapGet (buildMetadata res inst) "index_key"
        = (match inst.indexKey with
           | .absent => none
           | key => some (indexKeyJson key))
    ∧ (∀ k, k ∉ (["mode", "id", "name", "arn", "tags", "index_key"] :
          List String) → mapGet (buildMetadata res inst) k = none) := by
  refine ⟨?_, ?_, ?_, ?_, ?_, ?_, ?_⟩
  · rw [buildMetadata_get]; simp
  · rw [buildMetadata_get]; simp
  · rw [buildMetadata_get]; simp
  · rw [buildMetadata_get]; simp
  · rw [buildMetadata_get]; simp
  · rw [buildMetadata_get]; simp
  · intro k hk
    simp only [List.mem_cons, List.mem_singleton, not_or] at hk
    obtain ⟨hm, hi, hn, ha, ht, hx⟩ := hk
    rw [buildMetadata_get]
    simp [hm, hi, hn, ha, ht, hx]

theorem buildMetadata_allowlist_witness :
    mapGet (buildMetadata metadataSampleRes
      (mkInstance [] .absent
        [("id", Json.str "x"), ("name", Json.str "y"), ("arn", Json.str "z"),
         ("tags", Json.obj [("a", Json.str "b")]),
         ("secret", Json.str "nope")])) "secret" = none :=
  (buildMetadata_allowlist metadataSampleRes _).2.2.2.2.2.2 "secret"
    (by decide)

/-- C2: explicit-over-implicit precedence.  The edges emitted for one
(resource, instance) node contain exactly one edge per distinct target
in the union of the explicit and implicit dependency lists; a target in
the explicit list gets kind `depends_on` (even when it also appears in
the implicit list) and a target only in the implicit list gets kind
`implicit`, independent of declaration order. -/
theorem collectDependencies_explicit_precedence
    (nodeID : String) (exD imD : List String) (t : String) :
    ((instanceEdges nodeID (collectDependencies exD imD)).countP
        (fun e => e.target = t) =
      if t ∈ exD ∨ t ∈ imD then 1 else 0)
    ∧ (t ∈ exD →
        Edge.mk nodeID t "depends_on"
          ∈ instanceEdges nodeID (collectDependencies exD imD))
    ∧ (t ∉ exD → t ∈ imD →
        Edge.mk nodeID t "implicit"
          ∈ instanceEdges nodeID (collectDependencies exD imD))
    ∧ (∀ e ∈ instanceEdges nodeID (collectDependencies exD imD),
        e.source = nodeID ∧
        (e.type = "depends_on" ↔ e.target ∈ exD) ∧
        (e.type = "implicit" ↔ (e.target ∉ exD ∧ e.target ∈ imD))) := by
  have hnd := collectDependencies_keys_nodup exD imD
  have hmem : t ∈ (collectDependencies exD imD).map Prod.fst ↔
      (t ∈ exD ∨ t ∈ imD) := by
    rw [← mapGet_isSome_iff, mapGet_collectDependencies]
    by_cases h1 : t ∈ exD <;> by_cases h2 : t ∈ imD <;> simp [h1, h2]
  refine ⟨?_, ?_, ?_, ?_⟩
  · unfold instanceEdges
    rw [List.countP_map]
    rw [show ((fun e : Edge => decide (e.target = t)) ∘
        (fun p : String × String =>
          ({ source := nodeID, target := p.1, type := p.2 } : Edge))) =
        (fun p : String × String => decide (p.1 = t)) from rfl]
    rw [countP_key_of_nodup _ t hnd]
    by_cases hor : t ∈ exD ∨ t ∈ imD
    · rw [if_pos (hmem.mpr hor), if_pos hor]
    · rw [if_neg (fun hh => hor (hmem.mp hh)), if_neg hor]
  · intro ht
    have hmg : mapGet (collectDependencies exD imD) t = some "depends_on" := by
      rw [mapGet_collectDependencies]; simp [ht]
    exact List.mem_map.mpr ⟨(t, "depends_on"),
      mem_of_mapGet_eq_some _ _ _ hmg, rfl⟩
  · intro htn ht
    have hmg : mapGet (collectDependencies exD imD) t = some "implicit" := by
      rw [mapGet_collectDependencies]; simp [htn, ht]
    exact List.mem_map.mpr ⟨(t, "implicit"),
      mem_of_mapGet_eq_some _ _ _ hmg, rfl⟩
  · intro e he
    rcases List.mem_map.mp he with ⟨p, hp, rfl⟩
    have hpg := mapGet_eq_some_of_mem_nodup _ p hp hnd
    rw [mapGet_collectDependencies] at hpg
    refine ⟨rfl, ?_, ?_⟩
    · by_cases h1 : p.1 ∈ exD
      · rw [if_pos h1] at hpg
        have h2 := Option.some.inj hpg
        simp [← h2, h1]
      · rw [if_neg h1] at hpg
        by_cases h2 : p.1 ∈ imD
        · rw [if_pos h2] at hpg
          have h3 := Option.some.inj hpg
          simp [← h3, h1]
        · rw [if_neg h2] at hpg
          cases hpg
    · by_cases h1 : p.1 ∈ exD
      · rw [if_pos h1] at hpg
        have h2 := Option.some.inj hpg
        simp [← h2, h1]
      · rw [if_neg h1] at hpg
        by_cases h2 : p.1 ∈ imD
        · rw [if_pos h2] at hpg
          have h3 := Option.some.inj hpg
          simp [← h3, h1, h2]
        · rw [if_neg h2] at hpg
          cases hpg

theorem collectDependencies_explicit_precedence_witness :
    (instanceEdges "aws_instance.web"
        (collectDependencies ["aws_vpc.main"] ["aws_vpc.main"])).countP
      (fun e => e.target = "aws_vpc.main") = 1
    ∧ Edge.mk "aws_instance.web" "aws_vpc.main" "depends_on"
        ∈ instanceEdges "aws_instance.web"
          (collectDependencies ["aws_vpc.main"] ["aws_vpc.main"]) := by
  have h := collectDependencies_explicit_precedence "aws_instance.web"
    ["aws_vpc.main"] ["aws_vpc.main"] "aws_vpc.main"
  exact ⟨by rw [h.1]; decide, h.2.1 (by decide)⟩

/-- C3: duplicate collapse and dependency skip.  An occurrence whose
computed identifier was already emitted changes nothing — no node, no
edges, its dependency lists are never examined (the loop state is
returned untouched whatever they contain); consequently emitted node
identifiers are pairwise distinct, and the sample state declaring the
same resource twice (with dependencies on both occurrences) yields one
node and only the first occurrence's two edges. -/
theorem buildGraph_duplicate_skip :
    (∀ (g : Graph) (m : List String) (res : ResourceState)
        (inst : ResourceInstance) (i : Nat),
      buildNodeID res inst i ∈ m → processInstance g m res inst i = (g, m))
    ∧ (∀ state : TerraformState,
        ((BuildGraph state).nodes.map Node.id).Nodup)
    ∧ (BuildGraph dupState).nodes.length = 1
    ∧ (BuildGraph dupState).edges.length = 2 := by
  refine ⟨?_, ?_, rfl, rfl⟩
  · intro g m res inst i h
    simp [processInstance, h]
  · intro state
    exact (buildGraph_nodesInv state).1

theorem buildGraph_duplicate_skip_witness :
    processInstance { nodes := [], edges := [] } ["aws_vpc.main"] dupRes
        (mkInstance ["aws_x.y"] .absent [("id", Json.str "vpc-1")]) 0
      = ({ nodes := [], edges := [] }, ["aws_vpc.main"]) :=
  buildGraph_duplicate_skip.1 _ _ _ _ 0 (by decide)

/-- C10: edge sources never dangle.  Every edge of a built graph has a
source identifier equal to the ID of some node of that graph (only
targets may reference identifiers that are not nodes). -/
theorem buildGraph_edge_sources_exist (state : TerraformState) (e : Edge)
    (he : e ∈ (BuildGraph state).edges) :
    ∃ n ∈ (BuildGraph state).nodes, n.id = e.source :=
  buildGraph_edgesInv state e he

theorem buildGraph_edge_sources_exist_witness :
    ∃ n ∈ (BuildGraph edgeSampleState).nodes,
      n.id = (Edge.mk "aws_instance.web" "aws_vpc.main" "depends_on").source :=
  buildGraph_edge_sources_exist edgeSampleState _ (by decide)

/-- C4: decode raises-iff.  For every textual JSON parser and payload,
`ParseTfstate` fails with `emptyInput` exactly when the payload has zero
length; otherwise with `malformedDocument` exactly when the payload does
not unmarshal into the `TerraformState` shape; otherwise with
`missingVersion` exactly when the decoded version is zero (which is also
what an absent `version` key decodes to); otherwise with
`missingToolVersion` exactly when the decoded tool version is the empty
string (also the decoding of an absent key); otherwise it succeeds.
Each failure is the returned value, never swallowed, and the checks
apply in that order. -/
theorem parseTfstate_error_cases (f : List Nat → Option Json)
    (data : List Nat) :
    (ParseTfstate f data = .error .emptyInput ↔ data = [])
    ∧ (ParseTfstate f data = .error .malformedDocument ↔
        data ≠ [] ∧ (f data).bind decodeState = none)
    ∧ (ParseTfstate f data = .error .missingVersion ↔
        data ≠ [] ∧ ∃ st, (f data).bind decodeState = some st ∧
          st.version = 0)
    ∧ (ParseTfstate f data = .error .missingToolVersion ↔
        data ≠ [] ∧ ∃ st, (f data).bind decodeState = some st ∧
          st.version ≠ 0 ∧ st.terraformVersion = "")
    ∧ (∀ st, ParseTfstate f data = .ok st ↔
        data ≠ [] ∧ (f data).bind decodeState = some st ∧
          st.version ≠ 0 ∧ st.terraformVersion ≠ "") := by
  unfold ParseTfstate
  by_cases hd : data.length = 0
  · have hd' : data = [] := List.length_eq_zero.mp hd
    simp [hd, hd']
  · have hd' : data ≠ [] := fun h => hd (by simp [h])
    rw [if_neg hd]
    cases hb : (f data).bind decodeState with
    | none => simp [hd']
    | some st =>
      by_cases hv : st.version = 0
      · simp [hv, hd']
      · by_cases ht : st.terraformVersion = ""
        · simp [hv, ht, hd']
        · have ht' : ¬("" = st.terraformVersion) := fun hh => ht hh.symm
          simp [hv, ht, ht', hd']

/-- C8: decode success postcondition.  Whenever `ParseTfstate` succeeds,
the returned state is exactly the unmarshalling of the parsed document,
and when the document is an object with no `resources` key the state's
resources field is the empty sequence. -/
theorem parseTfstate_success_postcondition (f : List Nat → Option Json)
    (data : List Nat) (st : TerraformState)
    (h : ParseTfstate f data = .ok st) :
    (∃ doc, f data = some doc ∧ decodeState doc = some st)
    ∧ (∀ fields, f data = some (Json.obj fields) →
        jLookup fields "resources" = none → st.resources = []) := by
  unfold ParseTfstate at h
  by_cases hd : data.length = 0
  · rw [if_pos hd] at h; cases h
  · rw [if_neg hd] at h
    cases hb : (f data).bind decodeState with
    | none =>
      simp only [hb] at h
      exact Except.noConfusion h
    | some st' =>
      simp only [hb] at h
      by_cases hv : st'.version = 0
      · simp [hv] at h
      · by_cases htv : st'.terraformVersion = ""
        · simp [hv, htv] at h
        · simp only [hv, htv, if_false, Except.ok.injEq] at h
          subst h
          cases hf : f data with
          | none => rw [hf] at hb; cases hb
          | some doc =>
            rw [hf] at hb
            simp only [Option.some_bind] at hb
            refine ⟨⟨doc, rfl, hb⟩, ?_⟩
            intro fields hfe hres
            have hdoc := Option.some.inj hfe
            subst hdoc
            simp only [decodeState] at hb
            rw [hres] at hb
            cases h1 : decodeIntField (jLookup fields "version") with
            | none => rw [h1] at hb; exact Option.noConfusion hb
            | some v1 =>
            rw [h1] at hb
            cases h2 : decodeStringField
                (jLookup fields "terraform_version") with
            | none => rw [h2] at hb; exact Option.noConfusion hb
            | some v2 =>
            rw [h2] at hb
            cases h3 : decodeIntField (jLookup fields "serial") with
            | none => rw [h3] at hb; exact Option.noConfusion hb
            | some v3 =>
            rw [h3] at hb
            cases h4 : decodeStringField (jLookup fields "lineage") with
            | none => rw [h4] at hb; exact Option.noConfusion hb
            | some v4 =>
            rw [h4] at hb
            cases h5 : decodeOutputsField (jLookup fields "outputs") with
            | none => rw [h5] at hb; exact Option.noConfusion hb
            | some v5 =>
            rw [h5] at hb
            rw [show decodeResourcesField (none : Option Json) =
              some ([] : List ResourceState) from rfl] at hb
            have h6 := Option.some.inj hb
            rw [← h6]

theorem parseTfstate_success_postcondition_witness :
    (∃ doc, (fun _ : List Nat => some minimalDoc) [1] = some doc ∧
        decodeState doc = some
          { version := 4, terraformVersion := "1.5.0", serial := 0,
            lineage := "", outputs := [], resources := [] })
    ∧ (∀ fields, (fun _ : List Nat => some minimalDoc) [1]
          = some (Json.obj fields) →
        jLookup fields "resources" = none →
        ({ version := 4, terraformVersion := "1.5.0", serial := 0,
           lineage := "", outputs := [],
           resources := [] } : TerraformState).resources = []) :=
  parseTfstate_success_postcondition (fun _ => some minimalDoc) [1] _ rfl

end Terrascope
